import Mathlib

/- Shallow embedding of the crdb-trace-extractor pipeline
   (analyze_debug_zip.py and extract_commit.py).

   Log lines are modelled as lists of characters.  The millisecond values the
   Python code obtains with float() are modelled as rationals.  Each regular
   expression of the source is implemented as an executable character-level
   matcher; for the patterns at hand (literal fragments, greedy runs of a
   character class followed by a character outside that class, and gaps
   written as a dot-star) backtracking is deterministic, so the matchers
   reproduce re.search exactly on the newline-terminated lines produced by
   readlines.  The one Python exception reachable from the modelled code
   (float() applied to a malformed captured token) is modelled with Except. -/

abbrev Line := List Char

/-- Python whitespace class for the `\s` escapes of the source patterns
(ASCII range, which is what occurs in log lines). -/
def isPySpace (c : Char) : Bool :=
  c = ' ' || c = '\t' || c = '\n' || c = '\r' || c = '\x0b' || c = '\x0c'

/-- Python str.strip: remove leading and trailing whitespace. -/
def pyStrip (l : Line) : Line :=
  ((l.dropWhile isPySpace).reverse.dropWhile isPySpace).reverse

/-- Remainder immediately after the first occurrence of `pat` as a contiguous
substring, none if `pat` never occurs (search for a literal fragment). -/
def dropToAfter (pat : List Char) : List Char → Option (List Char)
  | [] => if pat.isEmpty then some [] else none
  | l@(_ :: rest) =>
    if pat.isPrefixOf l then some (l.drop pat.length) else dropToAfter pat rest

/-- Python `pat in line` / re.search of a literal pattern. -/
def hasSub (pat : List Char) (l : List Char) : Bool :=
  (dropToAfter pat l).isSome

/-- re.search of `SQL txn took .*exceeding threshold of .*:` (threshold_re):
the three literal fragments occur in this order. -/
def thresholdSearch (l : Line) : Bool :=
  match dropToAfter "SQL txn took ".toList l with
  | none => false
  | some r1 =>
    match dropToAfter "exceeding threshold of ".toList r1 with
    | none => false
    | some r2 => hasSub [':'] r2

/-- Character class `[\d.]` of duration_re. -/
def isDurChar (c : Char) : Bool := c.isDigit || c = '.'

/-- re.search of `SQL txn took ([\d.]+)ms` (duration_re): the captured
`[\d.]+` run of the leftmost match.  The greedy run is maximal and must be
followed by "ms"; a failed attempt makes the scan resume one character
further right, exactly as the regex engine does. -/
def durationSearch : Line → Option (List Char)
  | [] => none
  | l@(_ :: rest) =>
    if "SQL txn took ".toList.isPrefixOf l then
      let r := l.drop 13
      let run := r.takeWhile isDurChar
      if !run.isEmpty && "ms".toList.isPrefixOf (r.drop run.length) then some run
      else durationSearch rest
    else durationSearch rest

/-- Numeric value of a digit run. -/
def digitsToNat (ds : List Char) : Nat :=
  ds.foldl (fun acc c => acc * 10 + (c.toNat - '0'.toNat)) 0

/-- Value of `<intPart>.<fracPart>` as a rational number of milliseconds. -/
def decimalVal (intPart fracPart : List Char) : ℚ :=
  (digitsToNat intPart : ℚ) + (digitsToNat fracPart : ℚ) / (10 : ℚ) ^ fracPart.length

/-- Python float() applied to a token drawn from the class `[\d.]+`:
it succeeds exactly when the token has at most one dot and at least one
digit, and otherwise raises ValueError (modelled as none). -/
def pyFloatOfToken (s : List Char) : Option ℚ :=
  if s.any Char.isDigit ∧ s.countP (fun c => c = '.') ≤ 1 then
    some (decimalVal (s.takeWhile (fun c => c ≠ '.')) ((s.dropWhile (fun c => c ≠ '.')).drop 1))
  else none

/-- Parse `\d+\.\d+` followed by `ms` at the head of `cs`; returns the value
and the remaining characters.  Both digit runs are maximal (greedy `\d+`, and
neither '.' nor 'm' is a digit, so the regex engine cannot backtrack into a
successful shorter run). -/
def parseNumMs (cs : List Char) : Option (ℚ × List Char) :=
  let d1 := cs.takeWhile Char.isDigit
  if d1.isEmpty then none else
  match cs.drop d1.length with
  | '.' :: r1 =>
    let d2 := r1.takeWhile Char.isDigit
    if d2.isEmpty then none else
    match r1.drop d2.length with
    | 'm' :: 's' :: r2 => some (decimalVal d1 d2, r2)
    | _ => none
  | _ => none

/-- re.search of the anchored `^\s*(\d+\.\d+)ms`: the single leading
elapsed-time token of a line. -/
def parseLeadingMs (l : Line) : Option ℚ :=
  (parseNumMs (l.dropWhile isPySpace)).map Prod.fst

/-- re.search of the anchored `^\s*(\d+\.\d+)ms\s+(\d+\.\d+)ms`: the two
leading elapsed-time tokens of a dual-timestamp line. -/
def parseDualLeading (l : Line) : Option (ℚ × ℚ) :=
  match parseNumMs (l.dropWhile isPySpace) with
  | none => none
  | some (t, r) =>
    if (r.takeWhile isPySpace).isEmpty then none else
    match parseNumMs (r.dropWhile isPySpace) with
    | none => none
    | some (s, _) => some (t, s)

/-- Consume a literal fragment. -/
def expectChars (pat : List Char) (cs : List Char) : Option (List Char) :=
  if pat.isPrefixOf cs then some (cs.drop pat.length) else none

/-- Consume exactly `n` digits. -/
def expectDigits (n : Nat) (cs : List Char) : Option (List Char) :=
  if (cs.take n).length = n ∧ (cs.take n).all Char.isDigit then some (cs.drop n)
  else none

/-- re.search of the anchored new-log-entry header pattern
`^[^>]+> I250804 [0-9]{2}:[0-9]{2}:[0-9]{2}\.[0-9]{6} [0-9]+ [0-9]+@[^:]+\.go:`
(new_log_entry_re).  The `[^>]+` run necessarily ends at the first '>', and
the `[^:]+` run before `\.go:` ends just before the first ':' after '@'. -/
def newLogEntryCheck (l : Line) : Bool :=
  let pre := l.takeWhile (fun c => c ≠ '>')
  if pre.isEmpty then false else
  match l.drop pre.length with
  | '>' :: r0 =>
    (do
      let r1 ← expectChars " I250804 ".toList r0
      let r2 ← expectDigits 2 r1
      let r3 ← expectChars [':'] r2
      let r4 ← expectDigits 2 r3
      let r5 ← expectChars [':'] r4
      let r6 ← expectDigits 2 r5
      let r7 ← expectChars ['.'] r6
      let r8 ← expectDigits 6 r7
      let r9 ← expectChars [' '] r8
      let d1 := r9.takeWhile Char.isDigit
      let r10 ← if d1.isEmpty then none else expectChars [' '] (r9.drop d1.length)
      let d2 := r10.takeWhile Char.isDigit
      let r11 ← if d2.isEmpty then none else expectChars ['@'] (r10.drop d2.length)
      let run := r11.takeWhile (fun c => c ≠ ':')
      if 4 ≤ run.length ∧ ".go".toList.isSuffixOf run ∧ ¬(r11.drop run.length).isEmpty
      then some () else none).isSome
  | _ => false

/- ------------------------------------------------------------------ -/
/- Trace segmenter: extract_slow_traces_from_file of analyze_debug_zip.py -/
/- ------------------------------------------------------------------ -/

/-- One extracted slow trace (the 'duration' and 'lines' keys of the trace
dictionary; the source-file key is bookkeeping and not modelled). -/
structure SlowTrace where
  duration : ℚ
  lines : List Line
deriving DecidableEq

/-- Model of Python regex compilation of a caller-supplied filter pattern:
`compiles` tells whether re.compile succeeds on the pattern text and
`search` is the compiled expression's search over a text. -/
structure PyRegexOracle where
  compiles : Bool
  search : List Char → Bool

/-- Filter acceptance of a buffered trace: no filter, or the filter
expression matches the concatenation of the buffered lines. -/
def filterOk (filt : Option (List Char → Bool)) (buf : List Line) : Bool :=
  match filt with
  | none => true
  | some f => f buf.flatten

/-- Flush predicate shared by the three flush sites: the buffered duration
meets the minimum threshold and the filter accepts the buffer. -/
def emitOk (minT : ℚ) (filt : Option (List Char → Bool)) (dur : ℚ) (buf : List Line) : Bool :=
  decide (minT ≤ dur) && filterOk filt buf

/-- Duration extraction from a threshold line: the captured token is fed to
float(), whose ValueError (token with two dots, or no digit) is uncaught in
the source and aborts the extraction. -/
def parseThresholdDuration (line : Line) : Except Unit ℚ :=
  match durationSearch line with
  | some tok =>
    match pyFloatOfToken tok with
    | some v => Except.ok v
    | none => Except.error ()
  | none => Except.ok 0

/-- The scanning loop of extract_slow_traces_from_file: state is the
capturing flag, the buffered lines and the buffered duration; the boundary
check looks one line ahead.  Emitted traces are produced in scan order. -/
def segLoop (minT : ℚ) (filt : Option (List Char → Bool)) :
    List Line → Bool → List Line → ℚ → Except Unit (List SlowTrace)
  | [], capturing, buf, dur =>
    if capturing && !buf.isEmpty && emitOk minT filt dur buf then
      Except.ok [⟨dur, buf⟩]
    else Except.ok []
  | line :: rest, capturing, buf, dur =>
    if thresholdSearch line then
      match parseThresholdDuration line with
      | Except.error e => Except.error e
      | Except.ok newDur =>
        let emitted := if capturing && !buf.isEmpty && emitOk minT filt dur buf then
          [SlowTrace.mk dur buf] else []
        match segLoop minT filt rest true [line] newDur with
        | Except.error e => Except.error e
        | Except.ok ts => Except.ok (emitted ++ ts)
    else if capturing then
      let buf2 := buf ++ [line]
      match rest with
      | [] => segLoop minT filt rest true buf2 dur
      | next :: _ =>
        if newLogEntryCheck next && !thresholdSearch next then
          let emitted := if emitOk minT filt dur buf2 then [SlowTrace.mk dur buf2] else []
          match segLoop minT filt rest false [] dur with
          | Except.error e => Except.error e
          | Except.ok ts => Except.ok (emitted ++ ts)
        else segLoop minT filt rest true buf2 dur
    else segLoop minT filt rest capturing buf dur
termination_by structural lines => lines

/-- extract_slow_traces_from_file: compile the optional filter pattern
(on a compilation failure the source prints a warning and returns the — at
that point empty — trace list), then run the scanning loop from the idle
state. -/
def extract_slow_traces_from_file (lines : List Line) (min_threshold_ms : ℚ)
    (filter_pattern : Option PyRegexOracle) : Except Unit (List SlowTrace) :=
  match filter_pattern with
  | some p =>
    if p.compiles then segLoop min_threshold_ms (some p.search) lines false [] 0
    else Except.ok []
  | none => segLoop min_threshold_ms none lines false [] 0

/- ------------------------------------------------------------------ -/
/- Commit extractor: extract_commit_from_trace / calculate_commit_duration -/
/- ------------------------------------------------------------------ -/

/-- The commit-transaction marker literal of extract_commit.py. -/
def commitMarkerLit : List Char := "portal resolved to: ‹COMMIT TRANSACTION›".toList

/-- The suffix of the lines from the first line containing the commit
marker to the end (the index scan plus the `lines[idx:]` slice). -/
def commitSuffix : List Line → Option (List Line)
  | [] => none
  | l :: rest =>
    if hasSub commitMarkerLit l then some (l :: rest) else commitSuffix rest

/-- Forward scan for the first line whose leading token parses (the
start-time / end-time loops of calculate_commit_duration). -/
def firstLeading : List Line → Option ℚ
  | [] => none
  | l :: rest =>
    match parseLeadingMs l with
    | some v => some v
    | none => firstLeading rest
termination_by structural ls => ls

/-- calculate_commit_duration: elapsed of the last line with a parseable
leading token (backward scan) minus elapsed of the first such line
(forward scan); none when either scan fails. -/
def calculate_commit_duration (commit_section : List Line) : Option ℚ :=
  if commit_section.isEmpty then none else
  match firstLeading commit_section with
  | none => none
  | some start_time =>
    match firstLeading commit_section.reverse with
    | none => none
    | some end_time => some (end_time - start_time)

/-- extract_commit_from_trace on the lines of a trace: none for an empty
trace or when no line carries the marker, otherwise the stripped first
line, the commit-section suffix and its duration. -/
def extract_commit_from_trace (lines : List Line) :
    Option (Line × List Line × Option ℚ) :=
  match lines with
  | [] => none
  | l0 :: _ =>
    match commitSuffix lines with
    | none => none
    | some cs => some (pyStrip l0, cs, calculate_commit_duration cs)

/- ------------------------------------------------------------------ -/
/- Timing analyzer: analyze_commit_timing                              -/
/- ------------------------------------------------------------------ -/

/-- Third entry of IGNORED_LOG_PATTERNS:
`event:kv/kvclient/kvcoord/transport\.go:207.*‹received batch response›`. -/
def ignoredTransportMatch (l : Line) : Bool :=
  match dropToAfter "event:kv/kvclient/kvcoord/transport.go:207".toList l with
  | none => false
  | some r => hasSub "‹received batch response›".toList r

/-- Any of the three static IGNORED_LOG_PATTERNS matches the line. -/
def ignoredLogMatch (l : Line) : Bool :=
  hasSub "making txn commit explicit".toList l ||
  hasSub "looking up descriptors for ids".toList l ||
  ignoredTransportMatch l

/-- One timing event of analyze_commit_timing, extracted from a
dual-timestamp line (the stored line text is stripped). -/
structure TimingEvent where
  total_time : ℚ
  step_time : ℚ
  line : Line
  ignore : Bool
deriving DecidableEq

/-- The timing events of a commit section, one per dual-timestamp line. -/
def timingEvents (commit_section : List Line) : List TimingEvent :=
  commit_section.filterMap fun l =>
    (parseDualLeading l).map fun (t, s) =>
      { total_time := t, step_time := s, line := pyStrip l, ignore := ignoredLogMatch l }

/-- Result record of analyze_commit_timing. -/
structure TimingResult where
  longest_step_time : ℚ
  longest_step_line : Line
  is_query_intent : Bool
  all_timing_events : List TimingEvent
deriving DecidableEq

/-- Python max(list, key=f): first element of maximal key, none on an empty
list (the source loops replace the current best only on a strictly larger
key, which picks the first maximum). -/
def firstMax? {α : Type} (f : α → ℚ) (l : List α) : Option α :=
  l.foldl (fun acc x =>
    match acc with
    | none => some x
    | some m => if f m < f x then some x else some m) none

/-- The QueryIntent marker literal. -/
def queryIntentLit : List Char := "received pre-commit QueryIntent batch response".toList

/-- Assemble the analyze_commit_timing result from the longest step. -/
def mkTimingResult (e : TimingEvent) (evs : List TimingEvent) : TimingResult :=
  { longest_step_time := e.step_time, longest_step_line := e.line,
    is_query_intent := hasSub queryIntentLit e.line, all_timing_events := evs }

/-- analyze_commit_timing: none for an empty section or when no line is a
dual-timestamp line; otherwise the event of maximal step time among the
non-ignored events, falling back to all events when every event is
ignored. -/
def analyze_commit_timing (commit_section : List Line) : Option TimingResult :=
  if commit_section.isEmpty then none else
  let evs := timingEvents commit_section
  if evs.isEmpty then none else
  match firstMax? (fun e => e.step_time) (evs.filter fun e => !e.ignore) with
  | some e => some (mkTimingResult e evs)
  | none =>
    match firstMax? (fun e => e.step_time) evs with
    | some e => some (mkTimingResult e evs)
    | none => none

/- ------------------------------------------------------------------ -/
/- Network analyzer: analyze_network_timing                            -/
/- ------------------------------------------------------------------ -/

/-- A paired client-span / server-span round trip (client_server_pairs
entry; the stored line texts are bookkeeping and not modelled). -/
structure NetPair where
  client_timestamp : ℚ
  server_timestamp : ℚ
  client_node : Nat
  server_node : Nat
  latency : ℚ
deriving DecidableEq

/-- A paired server-sends-response / client-receives-response round trip
(server_client_pairs entry). -/
structure ScPair where
  server_response_timestamp : ℚ
  client_received_timestamp : ℚ
  server_node : Nat
  client_node : Nat
  latency : ℚ
deriving DecidableEq

/-- Literal head of the client/server span operation patterns, up to the
captured node number. -/
def netOpHeadLit : List Char :=
  "=== operation:/cockroach.roachpb.Internal/Batch _verbose:‹1› node:‹".toList

/-- Attempt of the client-span pattern
`(\d+\.\d+)ms\s+(\d+\.\d+)ms\s+=== operation:... node:‹(\d+)›.*span\.kind:‹client›`
anchored at the head of `cs`; yields (timestamp, duration, node). -/
def clientAt (cs : List Char) : Option (ℚ × ℚ × Nat) :=
  match parseNumMs cs with
  | none => none
  | some (t1, r1) =>
    if (r1.takeWhile isPySpace).isEmpty then none else
    match parseNumMs (r1.dropWhile isPySpace) with
    | none => none
    | some (t2, r2) =>
      if (r2.takeWhile isPySpace).isEmpty then none else
      match expectChars netOpHeadLit (r2.dropWhile isPySpace) with
      | none => none
      | some r3 =>
        let ds := r3.takeWhile Char.isDigit
        if ds.isEmpty then none else
        match r3.drop ds.length with
        | '›' :: r4 =>
          if hasSub "span.kind:‹client›".toList r4 then some (t1, t2, digitsToNat ds)
          else none
        | _ => none

/-- Attempt of the server-span pattern (same head, then the literal
`› span.kind:‹server›` directly after the node number). -/
def serverAt (cs : List Char) : Option (ℚ × ℚ × Nat) :=
  match parseNumMs cs with
  | none => none
  | some (t1, r1) =>
    if (r1.takeWhile isPySpace).isEmpty then none else
    match parseNumMs (r1.dropWhile isPySpace) with
    | none => none
    | some (t2, r2) =>
      if (r2.takeWhile isPySpace).isEmpty then none else
      match expectChars netOpHeadLit (r2.dropWhile isPySpace) with
      | none => none
      | some r3 =>
        let ds := r3.takeWhile Char.isDigit
        if ds.isEmpty then none else
        match expectChars "› span.kind:‹server›".toList (r3.drop ds.length) with
        | some _ => some (t1, t2, digitsToNat ds)
        | none => none

/-- Attempt of the node-sending-response pattern
`(\d+\.\d+)ms\s+(\d+\.\d+)ms\s+event:server/node\.go:1472 \[n(\d+)\] node sending response`. -/
def serverRespAt (cs : List Char) : Option (ℚ × ℚ × Nat) :=
  match parseNumMs cs with
  | none => none
  | some (t1, r1) =>
    if (r1.takeWhile isPySpace).isEmpty then none else
    match parseNumMs (r1.dropWhile isPySpace) with
    | none => none
    | some (t2, r2) =>
      if (r2.takeWhile isPySpace).isEmpty then none else
      match expectChars "event:server/node.go:1472 [n".toList (r2.dropWhile isPySpace) with
      | none => none
      | some r3 =>
        let ds := r3.takeWhile Char.isDigit
        if ds.isEmpty then none else
        match expectChars "] node sending response".toList (r3.drop ds.length) with
        | some _ => some (t1, t2, digitsToNat ds)
        | none => none

/-- Attempt of the received-batch-response pattern
`(\d+\.\d+)ms\s+(\d+\.\d+)ms\s+event:kv/kvclient/kvcoord/transport\.go:207 \[n(\d+),client=.*?\] ‹received batch response›`. -/
def clientRecvAt (cs : List Char) : Option (ℚ × ℚ × Nat) :=
  match parseNumMs cs with
  | none => none
  | some (t1, r1) =>
    if (r1.takeWhile isPySpace).isEmpty then none else
    match parseNumMs (r1.dropWhile isPySpace) with
    | none => none
    | some (t2, r2) =>
      if (r2.takeWhile isPySpace).isEmpty then none else
      match expectChars "event:kv/kvclient/kvcoord/transport.go:207 [n".toList (r2.dropWhile isPySpace) with
      | none => none
      | some r3 =>
        let ds := r3.takeWhile Char.isDigit
        if ds.isEmpty then none else
        match expectChars ",client=".toList (r3.drop ds.length) with
        | none => none
        | some r4 =>
          if hasSub "] ‹received batch response›".toList r4 then some (t1, t2, digitsToNat ds)
          else none

/-- re.search: leftmost successful attempt of an anchored matcher. -/
def searchWith {β : Type} (at? : List Char → Option β) : List Char → Option β
  | [] => at? []
  | l@(_ :: rest) =>
    match at? l with
    | some b => some b
    | none => searchWith at? rest

/-- First line of `rest` matching the server-span pattern (the inner
forward scan of the client/server pairing loop). -/
def firstSome {β : Type} (f : Line → Option β) : List Line → Option β
  | [] => none
  | l :: rest =>
    match f l with
    | some b => some b
    | none => firstSome f rest

/-- The client→server pairs: each client-span line is paired with the
nearest following server-span line; latency is server timestamp minus
client timestamp. -/
def collectCsPairs : List Line → List NetPair
  | [] => []
  | l :: rest =>
    match searchWith clientAt l with
    | none => collectCsPairs rest
    | some (ct, _cd, cnode) =>
      match firstSome (searchWith serverAt) rest with
      | none => collectCsPairs rest
      | some (st, _sd, snode) =>
        { client_timestamp := ct, server_timestamp := st, client_node := cnode,
          server_node := snode, latency := st - ct } :: collectCsPairs rest
termination_by structural ls => ls

/-- The server→client pairs: each node-sending-response line is paired
with the nearest following received-batch-response line; latency is client
received timestamp minus server response timestamp. -/
def collectScPairs : List Line → List ScPair
  | [] => []
  | l :: rest =>
    match searchWith serverRespAt l with
    | none => collectScPairs rest
    | some (st, _sd, snode) =>
      match firstSome (searchWith clientRecvAt) rest with
      | none => collectScPairs rest
      | some (ct, _cd, cnode) =>
        { server_response_timestamp := st, client_received_timestamp := ct,
          server_node := snode, client_node := cnode, latency := ct - st } :: collectScPairs rest
termination_by structural ls => ls

/-- The abnormal-network evidence record. -/
structure NetworkAbnormal where
  client_server_latency : ℚ
  server_client_latency : ℚ
  discrepancy : ℚ
  server_node : Nat
  client_node : Nat
deriving DecidableEq

/-- Result record of analyze_network_timing. -/
structure NetworkAnalysis where
  longest_client_server : Option NetPair
  longest_server_client : Option ScPair
  abnormal_network : Option NetworkAbnormal
  client_server_pairs : List NetPair
  server_client_pairs : List ScPair
deriving DecidableEq

/-- analyze_network_timing: none for an empty section; otherwise the
maximum-latency pair of each direction and the abnormal flag, raised when
both maxima exist, refer to the same client and server nodes, and their
absolute latency difference exceeds the abnormal threshold.  The
network_threshold argument is accepted but, as in the source, unused. -/
def analyze_network_timing (commit_section : List Line)
    (network_threshold : ℚ) (abnormal_threshold : ℚ) : Option NetworkAnalysis :=
  if commit_section.isEmpty then none else
  let _ := network_threshold
  let csp := collectCsPairs commit_section
  let scp := collectScPairs commit_section
  let lcs := firstMax? (fun p => p.latency) csp
  let lsc := firstMax? (fun p => p.latency) scp
  let ab : Option NetworkAbnormal :=
    match lcs, lsc with
    | some a, some b =>
      if a.client_node = b.client_node ∧ a.server_node = b.server_node ∧
          abnormal_threshold < |a.latency - b.latency| then
        some { client_server_latency := a.latency, server_client_latency := b.latency,
               discrepancy := |a.latency - b.latency|, server_node := a.server_node,
               client_node := a.client_node }
      else none
    | _, _ => none
  some { longest_client_server := lcs, longest_server_client := lsc,
         abnormal_network := ab, client_server_pairs := csp, server_client_pairs := scp }

/- ------------------------------------------------------------------ -/
/- Raft analyzer: analyze_raft_timing                                  -/
/- ------------------------------------------------------------------ -/

/-- The five Raft event types collected by analyze_raft_timing. -/
inductive RaftOpType
  | submitting_proposal
  | flushing_proposal
  | local_proposal
  | applying_command
  | local_result
deriving DecidableEq

/-- One collected Raft operation (the node id is the captured digit string,
absent when the node pattern does not match the line). -/
structure RaftOp where
  type : RaftOpType
  timestamp : ℚ
  duration : ℚ
  node : Option (List Char)
  line : Line
deriving DecidableEq

/-- re.search of `\[n(\d+)`: digit run captured after the leftmost `[n`
that is followed by at least one digit. -/
def nodeBracketSearch : Line → Option (List Char)
  | [] => none
  | l@(_ :: rest) =>
    if "[n".toList.isPrefixOf l then
      let ds := (l.drop 2).takeWhile Char.isDigit
      if ds.isEmpty then nodeBracketSearch rest else some ds
    else nodeBracketSearch rest

/-- re.search of `node:‹(\d+)›`: digit run captured after the leftmost
`node:‹` whose digit run is nonempty and followed by `›`. -/
def nodeAngleSearch : Line → Option (List Char)
  | [] => none
  | l@(_ :: rest) =>
    if "node:‹".toList.isPrefixOf l then
      let r := l.drop 6
      let ds := r.takeWhile Char.isDigit
      match r.drop ds.length with
      | '›' :: _ => if ds.isEmpty then nodeAngleSearch rest else some ds
      | _ => nodeAngleSearch rest
    else nodeAngleSearch rest

/-- Build one Raft operation from a line when the type's substring
conditions and the leading dual-timestamp pattern hold. -/
def mkRaftOp (ty : RaftOpType) (nd : Option (List Char)) (l : Line) (ts : ℚ × ℚ) : RaftOp :=
  { type := ty, timestamp := ts.1, duration := ts.2, node := nd, line := pyStrip l }

/-- The if/elif chain of analyze_raft_timing classifying one line into at
most one of the five Raft event types. -/
def raftOpOfLine (l : Line) : Option RaftOp :=
  if hasSub "event:kv/kvserver/replica_raft.go:430".toList l &&
      hasSub "submitting proposal to proposal buffer".toList l then
    (parseDualLeading l).map (mkRaftOp .submitting_proposal (nodeBracketSearch l) l)
  else if hasSub "event:kv/kvserver/replica_proposal_buf.go:612".toList l &&
      hasSub "flushing proposal to Raft".toList l then
    (parseDualLeading l).map (mkRaftOp .flushing_proposal (nodeBracketSearch l) l)
  else if hasSub "=== operation:local proposal _verbose".toList l then
    (parseDualLeading l).map (mkRaftOp .local_proposal (nodeAngleSearch l) l)
  else if hasSub "event:kv/kvserver/app_batch.go:116".toList l &&
      hasSub "applying command".toList l then
    (parseDualLeading l).map (mkRaftOp .applying_command (nodeBracketSearch l) l)
  else if hasSub "event:kv/kvserver/replica_application_state_machine.go:185".toList l &&
      hasSub "LocalResult".toList l then
    (parseDualLeading l).map (mkRaftOp .local_result (nodeBracketSearch l) l)
  else none

/-- The Raft operations of a commit section in line order. -/
def raftOperations (commit_section : List Line) : List RaftOp :=
  commit_section.filterMap raftOpOfLine

/-- Per-node accumulation record of analyze_raft_timing. -/
structure RaftNodeGroup where
  node : Option (List Char)
  operations : List RaftOp
  total_duration : ℚ
deriving DecidableEq

/-- Insert one operation into the per-node table (a Python dict in
insertion order): an existing node's group accumulates the operation and
its duration, a new node is appended at the end. -/
def addRaftOp (acc : List RaftNodeGroup) (op : RaftOp) : List RaftNodeGroup :=
  if acc.any (fun g => decide (g.node = op.node)) then
    acc.map fun g =>
      if g.node = op.node then
        { g with operations := g.operations ++ [op],
                 total_duration := g.total_duration + op.duration }
      else g
  else
    acc ++ [{ node := op.node, operations := [op], total_duration := op.duration }]

/-- Group the Raft operations by node, in node discovery order. -/
def raftByNode (ops : List RaftOp) : List RaftNodeGroup :=
  ops.foldl addRaftOp []

/-- The selection loops of analyze_raft_timing, analyze_store_send_timing
and analyze_replica_send_timing: first element of maximal measure among
those whose measure strictly exceeds the threshold, none when no element
qualifies. -/
def firstMaxGt? {α : Type} (f : α → ℚ) (thr : ℚ) (l : List α) : Option α :=
  l.foldl (fun acc x =>
    if thr < f x then
      match acc with
      | none => some x
      | some m => if f m < f x then some x else some m
    else acc) none

/-- Result record of analyze_raft_timing. -/
structure RaftAnalysis where
  longest_raft : Option RaftNodeGroup
  raft_operations : List RaftOp
  raft_by_node : List RaftNodeGroup
deriving DecidableEq

/-- analyze_raft_timing: none for an empty section; otherwise the per-node
cumulative durations and the qualifying node of maximal cumulative
duration. -/
def analyze_raft_timing (commit_section : List Line) (raft_threshold : ℚ) :
    Option RaftAnalysis :=
  if commit_section.isEmpty then none else
  let ops := raftOperations commit_section
  let groups := raftByNode ops
  some { longest_raft := firstMaxGt? (fun g => g.total_duration) raft_threshold groups,
         raft_operations := ops, raft_by_node := groups }

/- ------------------------------------------------------------------ -/
/- StoreSend / ReplicaSend analyzers                                   -/
/- ------------------------------------------------------------------ -/

/-- One store_send or replica_send operation. -/
structure SendOp where
  timestamp : ℚ
  duration : ℚ
  node : Option (List Char)
  line : Line
deriving DecidableEq

/-- The store_send matcher of analyze_store_send_timing. -/
def storeSendOpOfLine (l : Line) : Option SendOp :=
  if hasSub "event:kv/kvserver/store_send.go:149".toList l &&
      hasSub "executing".toList l then
    (parseDualLeading l).map fun (t, d) =>
      { timestamp := t, duration := d, node := nodeBracketSearch l, line := pyStrip l }
  else none

/-- The replica_send matcher of analyze_replica_send_timing. -/
def replicaSendOpOfLine (l : Line) : Option SendOp :=
  if hasSub "event:kv/kvserver/replica_send.go:182".toList l &&
      hasSub "read-write path".toList l then
    (parseDualLeading l).map fun (t, d) =>
      { timestamp := t, duration := d, node := nodeBracketSearch l, line := pyStrip l }
  else none

/-- Result record of analyze_store_send_timing. -/
structure StoreSendAnalysis where
  longest_store_send : Option SendOp
  store_send_operations : List SendOp
deriving DecidableEq

/-- analyze_store_send_timing. -/
def analyze_store_send_timing (commit_section : List Line)
    (store_send_threshold : ℚ) : Option StoreSendAnalysis :=
  if commit_section.isEmpty then none else
  let ops := commit_section.filterMap storeSendOpOfLine
  some { longest_store_send := firstMaxGt? (fun o => o.duration) store_send_threshold ops,
         store_send_operations := ops }

/-- Result record of analyze_replica_send_timing. -/
structure ReplicaSendAnalysis where
  longest_replica_send : Option SendOp
  replica_send_operations : List SendOp
deriving DecidableEq

/-- analyze_replica_send_timing. -/
def analyze_replica_send_timing (commit_section : List Line)
    (replica_send_threshold : ℚ) : Option ReplicaSendAnalysis :=
  if commit_section.isEmpty then none else
  let ops := commit_section.filterMap replicaSendOpOfLine
  some { longest_replica_send := firstMaxGt? (fun o => o.duration) replica_send_threshold ops,
         replica_send_operations := ops }

/- ------------------------------------------------------------------ -/
/- Classifier: the category decision chain of extract_commit.py main   -/
/- ------------------------------------------------------------------ -/

/-- The closed category enumeration (the directory names of main). -/
inductive Category
  | query_intent
  | network
  | network_server_client
  | network_abnormal
  | raft
  | store_send
  | replica_send
  | other
deriving DecidableEq

/-- The nested category decision of main (extract_commit.py), transcribed
if-for-if: QueryIntent from the timing analysis, then each network signal,
then Raft, StoreSend, ReplicaSend, else other.  All call sites of
analyze_network_timing in main leave its abnormal threshold at the Python
default of 5.0. -/
def classifyCategory (commit_section : List Line)
    (network_threshold raft_threshold store_send_threshold replica_send_threshold : ℚ) :
    Category :=
  let ta := analyze_commit_timing commit_section
  if (match ta with
      | some t => t.is_query_intent
      | none => false) then
    Category.query_intent
  else
    let na := analyze_network_timing commit_section network_threshold 5
    if (match na with
        | some n =>
          match n.longest_client_server with
          | some p => decide (network_threshold < p.latency)
          | none => false
        | none => false) then
      Category.network
    else if (match na with
        | some n =>
          match n.longest_server_client with
          | some p => decide (network_threshold < p.latency)
          | none => false
        | none => false) then
      Category.network_server_client
    else if (match na with
        | some n => n.abnormal_network.isSome
        | none => false) then
      Category.network_abnormal
    else if (match analyze_raft_timing commit_section raft_threshold with
        | some ra => ra.longest_raft.isSome
        | none => false) then
      Category.raft
    else if (match analyze_store_send_timing commit_section store_send_threshold with
        | some sa => sa.longest_store_send.isSome
        | none => false) then
      Category.store_send
    else if (match analyze_replica_send_timing commit_section replica_send_threshold with
        | some ra => ra.longest_replica_send.isSome
        | none => false) then
      Category.replica_send
    else
      Category.other

/-- Priority-chain evaluator: first predicate that holds wins, default
category other (the specification's fixed-priority decision chain). -/
def firstMatch : List (Bool × Category) → Category
  | [] => Category.other
  | (b, c) :: rest => if b then c else firstMatch rest

/-- Specification-side predicate: the dominant timing step carries the
QueryIntent marker. -/
def queryIntentHint (commit_section : List Line) : Bool :=
  ((analyze_commit_timing commit_section).map (fun t => t.is_query_intent)).getD false

/-- Specification-side predicate: maximal client→server latency strictly
exceeds the network threshold. -/
def clientServerOver (commit_section : List Line) (network_threshold : ℚ) : Bool :=
  match (analyze_network_timing commit_section network_threshold 5).bind
      (fun n => n.longest_client_server) with
  | some p => decide (network_threshold < p.latency)
  | none => false

/-- Specification-side predicate: maximal server→client latency strictly
exceeds the network threshold. -/
def serverClientOver (commit_section : List Line) (network_threshold : ℚ) : Bool :=
  match (analyze_network_timing commit_section network_threshold 5).bind
      (fun n => n.longest_server_client) with
  | some p => decide (network_threshold < p.latency)
  | none => false

/-- Specification-side predicate: the abnormal network flag is raised. -/
def abnormalFlagged (commit_section : List Line) (network_threshold : ℚ) : Bool :=
  ((analyze_network_timing commit_section network_threshold 5).bind
      (fun n => n.abnormal_network)).isSome

/-- Specification-side predicate: some node's cumulative Raft duration
exceeds the Raft threshold. -/
def raftOver (commit_section : List Line) (raft_threshold : ℚ) : Bool :=
  ((analyze_raft_timing commit_section raft_threshold).bind
      (fun r => r.longest_raft)).isSome

/-- Specification-side predicate: some store_send operation exceeds its
threshold. -/
def storeSendOver (commit_section : List Line) (store_send_threshold : ℚ) : Bool :=
  ((analyze_store_send_timing commit_section store_send_threshold).bind
      (fun r => r.longest_store_send)).isSome

/-- Specification-side predicate: some replica_send operation exceeds its
threshold. -/
def replicaSendOver (commit_section : List Line) (replica_send_threshold : ℚ) : Bool :=
  ((analyze_replica_send_timing commit_section replica_send_threshold).bind
      (fun r => r.longest_replica_send)).isSome

/-- The specification's ordered priority chain for a commit section. -/
def priorityChain (commit_section : List Line)
    (network_threshold raft_threshold store_send_threshold replica_send_threshold : ℚ) :
    List (Bool × Category) :=
  [ (queryIntentHint commit_section, Category.query_intent),
    (clientServerOver commit_section network_threshold, Category.network),
    (serverClientOver commit_section network_threshold, Category.network_server_client),
    (abnormalFlagged commit_section network_threshold, Category.network_abnormal),
    (raftOver commit_section raft_threshold, Category.raft),
    (storeSendOver commit_section store_send_threshold, Category.store_send),
    (replicaSendOver commit_section replica_send_threshold, Category.replica_send) ]

/- ------------------------------------------------------------------ -/
/- Ranking: stable duration-descending sort                            -/
/- ------------------------------------------------------------------ -/

/-- Stable descending insertion: `x` is placed before the first element
whose key is not larger than `key x`, so elements with equal keys keep
their original relative order.  This is the (unique) behaviour of Python's
stable list.sort(key=..., reverse=True). -/
def insertDesc {α : Type} (key : α → ℚ) (x : α) : List α → List α
  | [] => [x]
  | b :: bs => if key x < key b then b :: insertDesc key x bs else x :: b :: bs

/-- Stable sort by key, descending (list.sort(key=..., reverse=True)). -/
def sortDescBy {α : Type} (key : α → ℚ) : List α → List α
  | [] => []
  | x :: xs => insertDesc key x (sortDescBy key xs)

/-- The trace ranking of extract_slow_traces_from_debug_zip:
all_traces.sort(key=lambda x: x['duration'], reverse=True). -/
def sortTracesByDuration (ts : List SlowTrace) : List SlowTrace :=
  sortDescBy (fun t => t.duration) ts

/- ------------------------------------------------------------------ -/
/- Commit-level pipeline of extract_commit.py main                     -/
/- ------------------------------------------------------------------ -/

/-- One valid_commits entry of main (trace file name, first line and timing
analysis are bookkeeping for output and not modelled). -/
structure CommitRec where
  trace_number : Nat
  commit_section : List Line
  commit_duration : Option ℚ
deriving DecidableEq

/-- The duration-bound filter of main: the bounds are compared only when
the commit duration is non-null. -/
def passesDurationBounds (min_duration max_duration : ℚ) (cd : Option ℚ) : Bool :=
  match cd with
  | none => true
  | some d => !(decide (d < min_duration)) && !(decide (max_duration < d))

/-- Keep the commits whose duration passes the bounds. -/
def filterCommitsByDuration (min_duration max_duration : ℚ) (l : List CommitRec) :
    List CommitRec :=
  l.filter fun r => passesDurationBounds min_duration max_duration r.commit_duration

/-- Sort key of valid_commits.sort: x['commit_duration'] or 0. -/
def commitSortKey (r : CommitRec) : ℚ := r.commit_duration.getD 0

/-- valid_commits.sort(key=lambda x: x['commit_duration'] or 0, reverse=True). -/
def sortValidCommits (l : List CommitRec) : List CommitRec :=
  sortDescBy commitSortKey l

/-- Bound filtering followed by the stable descending ranking, as main
performs them. -/
def rankValidCommits (min_duration max_duration : ℚ) (l : List CommitRec) :
    List CommitRec :=
  sortValidCommits (filterCommitsByDuration min_duration max_duration l)

/- ------------------------------------------------------------------ -/
/- Lemmas about the selection folds                                    -/
/- ------------------------------------------------------------------ -/

theorem firstMax?_append {α : Type} (f : α → ℚ) (l : List α) (a : α) :
    firstMax? f (l ++ [a]) =
      (match firstMax? f l with
        | none => some a
        | some m => if f m < f a then some a else some m) := by
  simp [firstMax?, List.foldl_append]

theorem firstMax?_spec {α : Type} (f : α → ℚ) (l : List α) :
    (firstMax? f l = none ↔ l = []) ∧
    (∀ r, firstMax? f l = some r → r ∈ l ∧ ∀ x ∈ l, f x ≤ f r) := by
  induction l using List.reverseRecOn with
  | nil => simp [firstMax?]
  | append_singleton l a ih =>
    rw [firstMax?_append]
    constructor
    · constructor
      · intro h
        cases hl : firstMax? f l <;> simp [hl] at h
        split at h <;> simp_all
      · intro h
        simp at h
    · intro r hr
      cases hl : firstMax? f l with
      | none =>
        simp [hl] at hr
        subst hr
        have : l = [] := (ih.1).mp hl
        subst this
        simp
      | some m =>
        have hm := ih.2 m hl
        simp [hl] at hr
        split at hr
        · rename_i hlt
          cases hr
          refine ⟨by simp, ?_⟩
          intro x hx
          rcases List.mem_append.mp hx with hx | hx
          · exact le_trans (hm.2 x hx) (le_of_lt hlt)
          · simp at hx; subst hx; exact le_refl _
        · rename_i hlt
          cases hr
          refine ⟨by simp [hm.1], ?_⟩
          intro x hx
          rcases List.mem_append.mp hx with hx | hx
          · exact hm.2 x hx
          · simp at hx; subst hx; exact le_of_not_lt hlt

theorem firstMaxGt?_append {α : Type} (f : α → ℚ) (thr : ℚ) (l : List α) (a : α) :
    firstMaxGt? f thr (l ++ [a]) =
      (if thr < f a then
        match firstMaxGt? f thr l with
        | none => some a
        | some m => if f m < f a then some a else some m
      else firstMaxGt? f thr l) := by
  simp [firstMaxGt?, List.foldl_append]

theorem firstMaxGt?_spec {α : Type} (f : α → ℚ) (thr : ℚ) (l : List α) :
    (firstMaxGt? f thr l = none ↔ ∀ x ∈ l, f x ≤ thr) ∧
    (∀ r, firstMaxGt? f thr l = some r →
      r ∈ l ∧ thr < f r ∧ ∀ x ∈ l, f x ≤ f r) := by
  induction l using List.reverseRecOn with
  | nil => simp [firstMaxGt?]
  | append_singleton l a ih =>
    rw [firstMaxGt?_append]
    by_cases ha : thr < f a
    · simp only [if_pos ha]
      constructor
      · constructor
        · intro h
          cases hl : firstMaxGt? f thr l <;> simp [hl] at h
          split at h <;> simp_all
        · intro h
          exact absurd (h a (by simp)) (not_le.mpr ha)
      · intro r hr
        cases hl : firstMaxGt? f thr l with
        | none =>
          simp [hl] at hr
          subst hr
          refine ⟨by simp, ha, ?_⟩
          intro x hx
          rcases List.mem_append.mp hx with hx | hx
          · exact le_trans ((ih.1).mp hl x hx) (le_of_lt ha)
          · simp at hx; subst hx; exact le_refl _
        | some m =>
          have hm := ih.2 m hl
          simp [hl] at hr
          split at hr
          · rename_i hlt
            cases hr
            refine ⟨by simp, ha, ?_⟩
            intro x hx
            rcases List.mem_append.mp hx with hx | hx
            · exact le_trans (hm.2.2 x hx) (le_of_lt hlt)
            · simp at hx; subst hx; exact le_refl _
          · rename_i hlt
            cases hr
            refine ⟨by simp [hm.1], hm.2.1, ?_⟩
            intro x hx
            rcases List.mem_append.mp hx with hx | hx
            · exact hm.2.2 x hx
            · simp at hx; subst hx; exact le_of_not_lt hlt
    · simp only [if_neg ha]
      constructor
      · rw [ih.1]
        constructor
        · intro h x hx
          rcases List.mem_append.mp hx with hx | hx
          · exact h x hx
          · simp at hx; subst hx; exact le_of_not_lt ha
        · intro h x hx
          exact h x (List.mem_append.mpr (Or.inl hx))
      · intro r hr
        have hm := ih.2 r hr
        refine ⟨List.mem_append.mpr (Or.inl hm.1), hm.2.1, ?_⟩
        intro x hx
        rcases List.mem_append.mp hx with hx | hx
        · exact hm.2.2 x hx
        · simp at hx; subst hx; exact le_trans (le_of_not_lt ha) (le_of_lt hm.2.1)

/- ------------------------------------------------------------------ -/
/- Lemmas about the stable descending sort                             -/
/- ------------------------------------------------------------------ -/

theorem insertDesc_perm {α : Type} (key : α → ℚ) (x : α) (l : List α) :
    (insertDesc key x l).Perm (x :: l) := by
  induction l with
  | nil => simp [insertDesc]
  | cons b bs ih =>
    by_cases h : key x < key b
    · simp only [insertDesc, if_pos h]
      exact (List.Perm.cons b ih).trans (List.Perm.swap x b bs)
    · simp [insertDesc, if_neg h]

theorem sortDescBy_perm {α : Type} (key : α → ℚ) (l : List α) :
    (sortDescBy key l).Perm l := by
  induction l with
  | nil => simp [sortDescBy]
  | cons x xs ih =>
    exact ((insertDesc_perm key x (sortDescBy key xs)).trans (List.Perm.cons x ih))

theorem mem_insertDesc {α : Type} (key : α → ℚ) (x y : α) (l : List α) :
    y ∈ insertDesc key x l ↔ y = x ∨ y ∈ l := by
  constructor
  · intro h
    have := (insertDesc_perm key x l).mem_iff.mp h
    simpa using this
  · intro h
    apply (insertDesc_perm key x l).mem_iff.mpr
    simpa using h

theorem insertDesc_sorted {α : Type} (key : α → ℚ) (x : α) (l : List α)
    (h : List.Pairwise (fun a b => key b ≤ key a) l) :
    List.Pairwise (fun a b => key b ≤ key a) (insertDesc key x l) := by
  induction l with
  | nil => simp [insertDesc]
  | cons b bs ih =>
    rcases List.pairwise_cons.mp h with ⟨hb, hbs⟩
    by_cases hx : key x < key b
    · simp only [insertDesc, if_pos hx]
      apply List.pairwise_cons.mpr
      refine ⟨?_, ih hbs⟩
      intro y hy
      rcases (mem_insertDesc key x y bs).mp hy with rfl | hy
      · exact le_of_lt hx
      · exact hb y hy
    · simp only [insertDesc, if_neg hx]
      apply List.pairwise_cons.mpr
      refine ⟨?_, h⟩
      intro y hy
      rcases List.mem_cons.mp hy with rfl | hy
      · exact le_of_not_lt hx
      · exact le_trans (hb y hy) (le_of_not_lt hx)

theorem sortDescBy_sorted {α : Type} (key : α → ℚ) (l : List α) :
    List.Pairwise (fun a b => key b ≤ key a) (sortDescBy key l) := by
  induction l with
  | nil => simp [sortDescBy]
  | cons x xs ih => exact insertDesc_sorted key x (sortDescBy key xs) ih

theorem insertDesc_filter_key {α : Type} (key : α → ℚ) (x : α) (v : ℚ) (l : List α) :
    (insertDesc key x l).filter (fun a => decide (key a = v)) =
      (if key x = v then [x] else []) ++ l.filter (fun a => decide (key a = v)) := by
  induction l with
  | nil => by_cases h : key x = v <;> simp [insertDesc, h]
  | cons b bs ih =>
    by_cases hx : key x < key b
    · simp only [insertDesc, if_pos hx]
      by_cases hbv : key b = v
      · have hxv : ¬ key x = v := by
          intro hcontra
          rw [hcontra, ← hbv] at hx
          exact lt_irrefl _ hx
        simp [List.filter_cons, hbv, hxv] at ih ⊢
        exact ih
      · simp [List.filter_cons, hbv] at ih ⊢
        exact ih
    · simp only [insertDesc, if_neg hx]
      by_cases hxv : key x = v <;> by_cases hbv : key b = v <;>
        simp [List.filter_cons, hxv, hbv]

theorem sortDescBy_filter_key {α : Type} (key : α → ℚ) (v : ℚ) (l : List α) :
    (sortDescBy key l).filter (fun a => decide (key a = v)) =
      l.filter (fun a => decide (key a = v)) := by
  induction l with
  | nil => simp [sortDescBy]
  | cons x xs ih =>
    simp only [sortDescBy]
    rw [insertDesc_filter_key]
    by_cases hxv : key x = v <;> simp [List.filter_cons, hxv, ih]

/-- Decidable equality of Except results, for evaluating the embedded
extraction on concrete inputs. -/
instance {e a : Type} [DecidableEq e] [DecidableEq a] : DecidableEq (Except e a) := fun x y =>
  match x, y with
  | .error u, .error v =>
    if h : u = v then .isTrue (by rw [h]) else .isFalse (by intro hc; cases hc; exact h rfl)
  | .error _, .ok _ => .isFalse (by intro hc; cases hc)
  | .ok _, .error _ => .isFalse (by intro hc; cases hc)
  | .ok u, .ok v =>
    if h : u = v then .isTrue (by rw [h]) else .isFalse (by intro hc; cases hc; exact h rfl)

/- ------------------------------------------------------------------ -/
/- Claim theorems                                                      -/
/- ------------------------------------------------------------------ -/

/-- C6: the ranking step orders records by duration descending and is
stable: it permutes the input, adjacent output keys are non-increasing,
and for every duration value the records carrying it appear in their
original discovery order; in particular input durations [120, 95, 150, 95]
produce output order [150, 120, 95(a), 95(b)] with (a) before (b) exactly
as in the input. -/
theorem ranking_stable_desc :
    (∀ (α : Type) (key : α → ℚ) (l : List α),
      (sortDescBy key l).Perm l ∧
      List.Pairwise (fun a b => key b ≤ key a) (sortDescBy key l) ∧
      (∀ v : ℚ, (sortDescBy key l).filter (fun a => decide (key a = v)) =
        l.filter (fun a => decide (key a = v)))) ∧
    sortTracesByDuration
        [⟨120, [['a']]⟩, ⟨95, [['b']]⟩, ⟨150, [['c']]⟩, ⟨95, [['d']]⟩] =
      [⟨150, [['c']]⟩, ⟨120, [['a']]⟩, ⟨95, [['b']]⟩, ⟨95, [['d']]⟩] :=
  ⟨fun α key l =>
    ⟨sortDescBy_perm key l, sortDescBy_sorted key l, fun v => sortDescBy_filter_key key v l⟩,
   by decide⟩

/-- C2 (amended): on a filter pattern that fails to compile, the
extraction returns the empty trace list — the very value a valid pattern
that matches nothing produces — so the failure is not distinguishable in
the returned result. -/
theorem invalid_filter_returns_empty (lines : List Line) (minT : ℚ)
    (p : PyRegexOracle) (h : p.compiles = false) :
    extract_slow_traces_from_file lines minT (some p) = Except.ok [] := by
  simp [extract_slow_traces_from_file, h]

/-- C2 counterexample: on the one-line input "hello\n" with threshold 200,
a non-compiling pattern and a compiling pattern that matches nothing give
the same outcome, the successful empty trace list — refuting the claim
that the invalid-pattern outcome is distinct from the empty result. -/
theorem invalid_filter_counterexample :
    extract_slow_traces_from_file ["hello\n".toList] 200
        (some ⟨false, fun _ => false⟩) = Except.ok [] ∧
    extract_slow_traces_from_file ["hello\n".toList] 200
        (some ⟨true, fun _ => false⟩) = Except.ok [] := by
  constructor <;> rfl

/-- C2 witness for the amended claim at a concrete input. -/
theorem invalid_filter_returns_empty_witness :
    (PyRegexOracle.compiles ⟨false, fun _ => false⟩ = false) ∧
    extract_slow_traces_from_file ["hello\n".toList] 200
        (some ⟨false, fun _ => false⟩) = Except.ok [] :=
  ⟨rfl, invalid_filter_returns_empty ["hello\n".toList] 200 ⟨false, fun _ => false⟩ rfl⟩

/-- C9 (code bug): on a threshold line whose captured duration token
"1.2.3" is not a parseable float, the extraction aborts with the modelled
ValueError instead of defaulting the duration to 0.0 and continuing; the
conjuncts exhibit the mechanism (the line is a threshold line, the token
"1.2.3" is captured, and float() fails on it). -/
theorem malformed_duration_token_aborts :
    thresholdSearch "node1> SQL txn took 1.2.3ms exceeding threshold of 100ms: x\n".toList = true ∧
    durationSearch "node1> SQL txn took 1.2.3ms exceeding threshold of 100ms: x\n".toList =
      some "1.2.3".toList ∧
    pyFloatOfToken "1.2.3".toList = none ∧
    extract_slow_traces_from_file
        ["node1> SQL txn took 1.2.3ms exceeding threshold of 100ms: x\n".toList]
        200 none = Except.error () := by
  refine ⟨?_, ?_, ?_, ?_⟩ <;> rfl

/-- Soundness invariant of the scanning loop: provided a capturing buffer
starts with a threshold line, every trace the loop emits has a nonempty
line list headed by a threshold line, a duration meeting the minimum, and
a filter-accepted concatenation. -/
theorem segLoop_sound (minT : ℚ) (filt : Option (List Char → Bool)) (lines : List Line) :
    ∀ (capturing : Bool) (buf : List Line) (dur : ℚ) (ts : List SlowTrace),
      (capturing = true → ∃ l ls, buf = l :: ls ∧ thresholdSearch l = true) →
      segLoop minT filt lines capturing buf dur = Except.ok ts →
      ∀ t ∈ ts, (∃ l ls, t.lines = l :: ls ∧ thresholdSearch l = true) ∧
        minT ≤ t.duration ∧ filterOk filt t.lines = true := by
  induction lines with
  | nil =>
    intro capturing buf dur ts hinv heq t ht
    simp only [segLoop] at heq
    split at heq
    · rename_i hcond
      simp only [Bool.and_eq_true, emitOk, decide_eq_true_eq] at hcond
      cases heq
      simp only [List.mem_singleton] at ht
      subst ht
      rcases hinv hcond.1.1 with ⟨l, ls, hbuf, hthr⟩
      exact ⟨⟨l, ls, hbuf, hthr⟩, hcond.2.1, hcond.2.2⟩
    · cases heq
      simp at ht
  | cons line rest ih =>
    intro capturing buf dur ts hinv heq t ht
    simp only [segLoop] at heq
    split at heq
    · rename_i hthr
      split at heq
      · simp at heq
      · rename_i newDur hpd
        split at heq
        · simp at heq
        · rename_i ts2 hrec
          have hrest := ih true [line] newDur ts2
            (fun _ => ⟨line, [], rfl, hthr⟩) hrec
          split at heq
          · rename_i hcond
            simp only [Bool.and_eq_true, emitOk, decide_eq_true_eq] at hcond
            cases heq
            rcases List.mem_append.mp ht with ht | ht
            · simp only [List.mem_singleton] at ht
              subst ht
              rcases hinv hcond.1.1 with ⟨l, ls, hbuf, hthr2⟩
              exact ⟨⟨l, ls, hbuf, hthr2⟩, hcond.2.1, hcond.2.2⟩
            · exact hrest t ht
          · cases heq
            exact hrest t ht
    · rename_i hthr
      split at heq
      · rename_i hcap
        rcases hinv hcap with ⟨l, ls, hbuf, hthr2⟩
        split at heq
        · exact ih true (buf ++ [line]) dur ts
            (fun _ => ⟨l, ls ++ [line], by rw [hbuf]; simp, hthr2⟩) heq t ht
        · split at heq
          · split at heq
            · simp at heq
            · rename_i ts2 hrec
              have hrest := ih false [] dur ts2 (by simp) hrec
              split at heq
              · rename_i hcond
                simp only [Bool.and_eq_true, emitOk, decide_eq_true_eq] at hcond
                cases heq
                rcases List.mem_append.mp ht with ht | ht
                · simp only [List.mem_singleton] at ht
                  subst ht
                  exact ⟨⟨l, ls ++ [line], by rw [hbuf]; simp, hthr2⟩,
                    hcond.1, hcond.2⟩
                · exact hrest t ht
              · cases heq
                exact hrest t ht
          · exact ih true (buf ++ [line]) dur ts
              (fun _ => ⟨l, ls ++ [line], by rw [hbuf]; simp, hthr2⟩) heq t ht
      · rename_i hcap
        exact ih capturing buf dur ts (fun hc => absurd hc hcap) heq t ht

/-- While idle, a run of non-threshold lines emits nothing. -/
theorem segLoop_no_threshold (minT : ℚ) (filt : Option (List Char → Bool))
    (lines : List Line) :
    ∀ (buf : List Line) (dur : ℚ), (∀ l ∈ lines, thresholdSearch l = false) →
      segLoop minT filt lines false buf dur = Except.ok [] := by
  induction lines with
  | nil => intro buf dur _; simp [segLoop]
  | cons line rest ih =>
    intro buf dur h
    have hl : thresholdSearch line = false := h line (by simp)
    simp only [segLoop, hl]
    simp only [Bool.false_eq_true, if_false]
    exact ih buf dur (fun l hl2 => h l (by simp [hl2]))

/-- C3: for every input, minimum threshold and (valid or absent) filter
pattern, every trace the segmenter emits has at least one line, its first
line matches the threshold pattern, its recorded duration is at least the
minimum threshold, and when a filter pattern is supplied the pattern's
search accepts the concatenation of the trace's lines; an input containing
no threshold lines yields zero traces. -/
theorem segmenter_invariants (lines : List Line) (minT : ℚ)
    (pat : Option PyRegexOracle) (ts : List SlowTrace)
    (heq : extract_slow_traces_from_file lines minT pat = Except.ok ts) :
    (∀ t ∈ ts, (∃ l ls, t.lines = l :: ls ∧ thresholdSearch l = true) ∧
      minT ≤ t.duration ∧
      (∀ p, pat = some p → p.search t.lines.flatten = true)) ∧
    ((∀ l ∈ lines, thresholdSearch l = false) → ts = []) := by
  cases pat with
  | none =>
    simp only [extract_slow_traces_from_file] at heq
    constructor
    · intro t ht
      have h := segLoop_sound minT none lines false [] 0 ts (by simp) heq t ht
      exact ⟨h.1, h.2.1, by simp⟩
    · intro hno
      rw [segLoop_no_threshold minT none lines [] 0 hno] at heq
      cases heq
      rfl
  | some p =>
    simp only [extract_slow_traces_from_file] at heq
    by_cases hc : p.compiles = true
    · rw [if_pos hc] at heq
      constructor
      · intro t ht
        have h := segLoop_sound minT (some p.search) lines false [] 0 ts (by simp) heq t ht
        refine ⟨h.1, h.2.1, ?_⟩
        intro q hq
        cases hq
        simpa [filterOk] using h.2.2
      · intro hno
        rw [segLoop_no_threshold minT (some p.search) lines [] 0 hno] at heq
        cases heq
        rfl
    · rw [if_neg hc] at heq
      cases heq
      exact ⟨by simp, fun _ => rfl⟩

unseal Rat.add Rat.mul Rat.inv Rat.sub in
/-- C3 witness: the invariants instantiated on a one-line input holding a
single threshold line of duration 300.5 with threshold 200 and no filter. -/
theorem segmenter_invariants_witness :
    (∃ l ls,
      (SlowTrace.mk (601 / 2)
        ["node1> SQL txn took 300.5ms exceeding threshold of 100ms: big\n".toList]).lines =
          l :: ls ∧ thresholdSearch l = true) ∧
    (200 : ℚ) ≤ (SlowTrace.mk (601 / 2)
      ["node1> SQL txn took 300.5ms exceeding threshold of 100ms: big\n".toList]).duration := by
  have h := segmenter_invariants
    ["node1> SQL txn took 300.5ms exceeding threshold of 100ms: big\n".toList] 200 none
    [SlowTrace.mk (601 / 2)
      ["node1> SQL txn took 300.5ms exceeding threshold of 100ms: big\n".toList]]
    (by decide)
  have h2 := h.1 (SlowTrace.mk (601 / 2)
    ["node1> SQL txn took 300.5ms exceeding threshold of 100ms: big\n".toList]) (by simp)
  exact ⟨h2.1, h2.2.1⟩

/-- The commit suffix is absent exactly when no line carries the marker. -/
theorem commitSuffix_none_iff (lines : List Line) :
    commitSuffix lines = none ↔ ∀ l ∈ lines, hasSub commitMarkerLit l = false := by
  induction lines with
  | nil => simp [commitSuffix]
  | cons l rest ih =>
    simp only [commitSuffix]
    by_cases h : hasSub commitMarkerLit l = true
    · simp [h]
    · rw [if_neg h]
      simp only [Bool.not_eq_true] at h
      simp [h, ih]

/-- A present commit suffix is the suffix of the lines starting at the
first marker line. -/
theorem commitSuffix_some (lines cs : List Line)
    (h : commitSuffix lines = some cs) :
    ∃ pre, lines = pre ++ cs ∧ (∀ l ∈ pre, hasSub commitMarkerLit l = false) ∧
      ∃ c cs2, cs = c :: cs2 ∧ hasSub commitMarkerLit c = true := by
  induction lines generalizing cs with
  | nil => simp [commitSuffix] at h
  | cons l rest ih =>
    simp only [commitSuffix] at h
    by_cases hl : hasSub commitMarkerLit l = true
    · rw [if_pos hl] at h
      cases h
      exact ⟨[], by simp, by simp, l, rest, rfl, hl⟩
    · rw [if_neg hl] at h
      rcases ih cs h with ⟨pre, hsplit, hpre, hc⟩
      simp only [Bool.not_eq_true] at hl
      refine ⟨l :: pre, by simp [hsplit], ?_, hc⟩
      intro x hx
      rcases List.mem_cons.mp hx with rfl | hx
      · exact hl
      · exact hpre x hx

/-- The forward scan agrees with find?-then-parse. -/
theorem firstLeading_eq_find (ls : List Line) :
    firstLeading ls =
      (ls.find? (fun l => (parseLeadingMs l).isSome)).bind parseLeadingMs := by
  induction ls with
  | nil => simp [firstLeading]
  | cons l rest ih =>
    simp only [firstLeading]
    cases hp : parseLeadingMs l with
    | some v => simp [List.find?_cons, hp]
    | none => simp [List.find?_cons, hp, ih]

/-- calculate_commit_duration in terms of the two directed scans. -/
theorem calculate_commit_duration_eq (cs : List Line) :
    calculate_commit_duration cs =
      (firstLeading cs).bind
        (fun s => (firstLeading cs.reverse).map (fun e => e - s)) := by
  cases cs with
  | nil => simp [calculate_commit_duration, firstLeading]
  | cons l rest =>
    simp only [calculate_commit_duration, List.isEmpty_cons, Bool.false_eq_true,
      if_false]
    cases firstLeading (l :: rest) with
    | none => simp
    | some s =>
      cases firstLeading (l :: rest).reverse with
      | none => simp
      | some e => simp

/-- C4: the commit extractor returns absent exactly when no line contains
the commit-transaction marker; otherwise it returns the suffix of the
trace's lines from the first marker line to the end, with commit duration
equal to the elapsed value of the last line whose leading token parses
minus the elapsed value of the first such line (forward scan for the
start, backward scan for the end), null when no line parses, and a
negative difference passed through as the literal subtraction. -/
theorem commit_extractor_spec (lines : List Line) :
    (extract_commit_from_trace lines = none ↔
      ∀ l ∈ lines, hasSub commitMarkerLit l = false) ∧
    (∀ fl cs cd, extract_commit_from_trace lines = some (fl, cs, cd) →
      (∃ pre, lines = pre ++ cs ∧ (∀ l ∈ pre, hasSub commitMarkerLit l = false) ∧
        ∃ c cs2, cs = c :: cs2 ∧ hasSub commitMarkerLit c = true) ∧
      cd = ((cs.find? (fun l => (parseLeadingMs l).isSome)).bind parseLeadingMs).bind
        (fun s => ((cs.reverse.find? (fun l => (parseLeadingMs l).isSome)).bind
          parseLeadingMs).map (fun e => e - s))) := by
  constructor
  · cases lines with
    | nil => simp [extract_commit_from_trace, commitSuffix]
    | cons l0 rest =>
      simp only [extract_commit_from_trace]
      rw [← commitSuffix_none_iff]
      cases commitSuffix (l0 :: rest) <;> simp
  · intro fl cs cd heq
    cases lines with
    | nil => simp [extract_commit_from_trace] at heq
    | cons l0 rest =>
      simp only [extract_commit_from_trace] at heq
      cases hcs : commitSuffix (l0 :: rest) with
      | none => rw [hcs] at heq; simp at heq
      | some cs0 =>
        rw [hcs] at heq
        simp only [Option.some_inj, Prod.mk.injEq] at heq
        obtain ⟨h1, h2, h3⟩ := heq
        subst h2
        refine ⟨commitSuffix_some _ _ hcs, ?_⟩
        rw [← h3, calculate_commit_duration_eq, firstLeading_eq_find,
          firstLeading_eq_find]

/-- Concrete four-line trace used to instantiate the commit-extractor
specification: a header, the marker line, and two timed lines. -/
def c4TraceLines : List Line :=
  ["hdr\n".toList,
   "x portal resolved to: ‹COMMIT TRANSACTION› y\n".toList,
   "  1.000ms a\n".toList,
   "  3.500ms b\n".toList]

unseal Rat.add Rat.mul Rat.inv Rat.sub in
/-- C4 witness: the extractor specification instantiated on the concrete
trace, whose commit duration is 3.5 − 1 = 2.5 milliseconds. -/
theorem commit_extractor_spec_witness :
    (∃ pre, c4TraceLines = pre ++ c4TraceLines.drop 1 ∧
      (∀ l ∈ pre, hasSub commitMarkerLit l = false) ∧
      ∃ c cs2, c4TraceLines.drop 1 = c :: cs2 ∧ hasSub commitMarkerLit c = true) ∧
    (some (5 / 2 : ℚ) : Option ℚ) =
      (((c4TraceLines.drop 1).find? (fun l => (parseLeadingMs l).isSome)).bind
          parseLeadingMs).bind
        (fun s => (((c4TraceLines.drop 1).reverse.find?
            (fun l => (parseLeadingMs l).isSome)).bind
          parseLeadingMs).map (fun e => e - s)) :=
  (commit_extractor_spec c4TraceLines).2 "hdr".toList (c4TraceLines.drop 1)
    (some (5 / 2)) (by decide)

/-- The event list the timing analyzer actually ranks: the non-ignored
events, or all events when every event is ignored. -/
def relevantTimingEvents (commit_section : List Line) : List TimingEvent :=
  let evs := timingEvents commit_section
  let filtered := evs.filter fun x => !x.ignore
  if filtered.isEmpty then evs else filtered

set_option maxHeartbeats 1000000 in
/-- C5: a commit section containing at least one dual-timestamp line always
yields a dominant step: an event of maximal step time among the non-ignored
events (among all events when every event is ignored), and the QueryIntent
hint is set exactly when the dominant step's line contains the QueryIntent
marker. -/
theorem timing_dominant_step (lines : List Line)
    (h : ∃ l ∈ lines, (parseDualLeading l).isSome = true) :
    ∃ r, analyze_commit_timing lines = some r ∧
      ∃ e ∈ relevantTimingEvents lines,
        r.longest_step_time = e.step_time ∧ r.longest_step_line = e.line ∧
        r.is_query_intent = hasSub queryIntentLit e.line ∧
        ∀ x ∈ relevantTimingEvents lines, x.step_time ≤ e.step_time := by
  rcases h with ⟨l, hl, hp⟩
  rcases Option.isSome_iff_exists.mp hp with ⟨ts, hts⟩
  have hmem : TimingEvent.mk ts.1 ts.2 (pyStrip l) (ignoredLogMatch l) ∈
      timingEvents lines := by
    apply List.mem_filterMap.mpr
    exact ⟨l, hl, by simp [hts]⟩
  have hne : lines.isEmpty = false := by
    cases lines with
    | nil => simp at hl
    | cons _ _ => rfl
  have hevne : timingEvents lines ≠ [] := by
    intro hc
    rw [hc] at hmem
    simp at hmem
  have hb : (timingEvents lines).isEmpty = false := by
    cases hq : timingEvents lines with
    | nil => exact absurd hq hevne
    | cons a as => rfl
  simp only [analyze_commit_timing, hne, hb, Bool.false_eq_true, if_false,
    relevantTimingEvents]
  cases hm : firstMax? (fun e => e.step_time)
      ((timingEvents lines).filter fun e => !e.ignore) with
  | some e =>
    have hspec := (firstMax?_spec (fun e => e.step_time) _).2 e hm
    have hfne : ((timingEvents lines).filter fun e => !e.ignore) ≠ [] := by
      intro hc
      rw [hc] at hm
      simp [firstMax?] at hm
    have hfb : (((timingEvents lines).filter fun e => !e.ignore)).isEmpty = false := by
      cases hq : (timingEvents lines).filter fun e => !e.ignore with
      | nil => exact absurd hq hfne
      | cons a as => rfl
    simp only [hfb, Bool.false_eq_true, if_false]
    exact ⟨mkTimingResult e (timingEvents lines), rfl, e, hspec.1, rfl, rfl, rfl, hspec.2⟩
  | none =>
    have hfe : ((timingEvents lines).filter fun e => !e.ignore) = [] :=
      (firstMax?_spec (fun e => e.step_time) _).1.mp hm
    cases hm2 : firstMax? (fun e => e.step_time) (timingEvents lines) with
    | none => exact absurd ((firstMax?_spec (fun e => e.step_time) _).1.mp hm2) hevne
    | some e =>
      have hspec := (firstMax?_spec (fun e => e.step_time) _).2 e hm2
      simp only [hfe, List.isEmpty_nil, if_true]
      exact ⟨mkTimingResult e (timingEvents lines), rfl, e, hspec.1, rfl, rfl, rfl, hspec.2⟩

/-- C5 witness: a commit section whose only dual-timestamp line matches an
ignore pattern still yields a dominant step via the fallback. -/
theorem timing_dominant_step_witness :
    ∃ r, analyze_commit_timing ["  1.000ms 2.000ms making txn commit explicit\n".toList] =
        some r ∧
      ∃ e ∈ relevantTimingEvents ["  1.000ms 2.000ms making txn commit explicit\n".toList],
        r.longest_step_time = e.step_time ∧ r.longest_step_line = e.line ∧
        r.is_query_intent = hasSub queryIntentLit e.line ∧
        ∀ x ∈ relevantTimingEvents ["  1.000ms 2.000ms making txn commit explicit\n".toList],
          x.step_time ≤ e.step_time :=
  timing_dominant_step ["  1.000ms 2.000ms making txn commit explicit\n".toList]
    ⟨"  1.000ms 2.000ms making txn commit explicit\n".toList, by simp, by decide⟩

/-- C1: for every commit section and thresholds the classifier computes
exactly the fixed-priority chain QueryIntent, network client→server over
threshold, network server→client over threshold, network abnormal, Raft,
StoreSend, ReplicaSend, Other, stopping at the first predicate that holds;
in particular whenever the dominant timing step carries the QueryIntent
marker the category is QueryIntent, whatever the network signals say. -/
theorem classify_priority_chain (cs : List Line)
    (netT raftT ssT rsT : ℚ) :
    classifyCategory cs netT raftT ssT rsT =
      firstMatch (priorityChain cs netT raftT ssT rsT) ∧
    (queryIntentHint cs = true →
      classifyCategory cs netT raftT ssT rsT = Category.query_intent) := by
  have e1 : (match analyze_commit_timing cs with
      | some t => t.is_query_intent
      | none => false) = queryIntentHint cs := by
    simp only [queryIntentHint]
    cases analyze_commit_timing cs <;> simp
  have e2 : (match analyze_network_timing cs netT 5 with
      | some n =>
        match n.longest_client_server with
        | some p => decide (netT < p.latency)
        | none => false
      | none => false) = clientServerOver cs netT := by
    simp only [clientServerOver]
    cases analyze_network_timing cs netT 5 with
    | none => simp
    | some n => cases n.longest_client_server <;> simp
  have e3 : (match analyze_network_timing cs netT 5 with
      | some n =>
        match n.longest_server_client with
        | some p => decide (netT < p.latency)
        | none => false
      | none => false) = serverClientOver cs netT := by
    simp only [serverClientOver]
    cases analyze_network_timing cs netT 5 with
    | none => simp
    | some n => cases n.longest_server_client <;> simp
  have e4 : (match analyze_network_timing cs netT 5 with
      | some n => n.abnormal_network.isSome
      | none => false) = abnormalFlagged cs netT := by
    simp only [abnormalFlagged]
    cases analyze_network_timing cs netT 5 <;> simp
  have e5 : (match analyze_raft_timing cs raftT with
      | some ra => ra.longest_raft.isSome
      | none => false) = raftOver cs raftT := by
    simp only [raftOver]
    cases analyze_raft_timing cs raftT <;> simp
  have e6 : (match analyze_store_send_timing cs ssT with
      | some sa => sa.longest_store_send.isSome
      | none => false) = storeSendOver cs ssT := by
    simp only [storeSendOver]
    cases analyze_store_send_timing cs ssT <;> simp
  have e7 : (match analyze_replica_send_timing cs rsT with
      | some ra => ra.longest_replica_send.isSome
      | none => false) = replicaSendOver cs rsT := by
    simp only [replicaSendOver]
    cases analyze_replica_send_timing cs rsT <;> simp
  have hchain : classifyCategory cs netT raftT ssT rsT =
      firstMatch (priorityChain cs netT raftT ssT rsT) := by
    simp only [classifyCategory, firstMatch, priorityChain, e1, e2, e3, e4, e5, e6, e7]
  refine ⟨hchain, ?_⟩
  intro hq
  simp only [queryIntentHint] at hq
  simp only [classifyCategory]
  cases hta : analyze_commit_timing cs with
  | none => rw [hta] at hq; simp at hq
  | some t =>
    rw [hta] at hq
    simp at hq
    simp [hta, hq]

/-- Concrete commit section triggering both the QueryIntent hint (dominant
step of 9ms) and a client→server network latency of 5ms. -/
def c1Section : List Line :=
  ["1.000ms 9.000ms received pre-commit QueryIntent batch response\n".toList,
   "10.000ms 2.000ms === operation:/cockroach.roachpb.Internal/Batch _verbose:‹1› node:‹3› x span.kind:‹client›\n".toList,
   "15.000ms 3.000ms === operation:/cockroach.roachpb.Internal/Batch _verbose:‹1› node:‹3› span.kind:‹server›\n".toList]

unseal Rat.add Rat.mul Rat.inv Rat.sub in
/-- C1 witness: a commit section engineered to trigger both the QueryIntent
hint and a network latency above the threshold classifies as QueryIntent. -/
theorem classify_priority_chain_witness :
    queryIntentHint c1Section = true ∧
    clientServerOver c1Section 1 = true ∧
    classifyCategory c1Section 1 1 1 1 = Category.query_intent :=
  ⟨by decide, by decide, (classify_priority_chain c1Section 1 1 1 1).2 (by decide)⟩

/-- C7: the network analyzer's result does not depend on the primary
network threshold, and the abnormal flag is raised exactly when both
directional maxima exist, refer to the same client node and the same
server node, and their absolute latency difference strictly exceeds the
abnormal threshold; each directional maximum, when present, is a pair of
the section with maximal latency in its direction. -/
theorem network_abnormal_iff (lines : List Line) (netT netT2 abT : ℚ) :
    analyze_network_timing lines netT abT = analyze_network_timing lines netT2 abT ∧
    (∀ r, analyze_network_timing lines netT abT = some r →
      (r.abnormal_network.isSome = true ↔
        ∃ p q, r.longest_client_server = some p ∧ r.longest_server_client = some q ∧
          p.client_node = q.client_node ∧ p.server_node = q.server_node ∧
          abT < |p.latency - q.latency|) ∧
      (∀ p, r.longest_client_server = some p →
        p ∈ collectCsPairs lines ∧ ∀ x ∈ collectCsPairs lines, x.latency ≤ p.latency) ∧
      (∀ q, r.longest_server_client = some q →
        q ∈ collectScPairs lines ∧ ∀ x ∈ collectScPairs lines, x.latency ≤ q.latency)) := by
  constructor
  · rfl
  · intro r hr
    obtain ⟨lcs, lsc, ab, csp, scp⟩ := r
    simp only [analyze_network_timing] at hr
    split at hr
    · exact absurd hr (by simp)
    · simp only [Option.some_inj, NetworkAnalysis.mk.injEq] at hr
      obtain ⟨h1, h2, h3, h4, h5⟩ := hr
      dsimp only
      cases hlcs : firstMax? (fun p => p.latency) (collectCsPairs lines) with
      | none =>
        rw [hlcs] at h1 h3
        cases hlsc : firstMax? (fun p => p.latency) (collectScPairs lines) with
        | none =>
          rw [hlsc] at h2 h3
          subst h1
          subst h2
          subst h3
          simp
        | some b =>
          rw [hlsc] at h2 h3
          subst h1
          subst h2
          subst h3
          refine ⟨by simp, by simp, ?_⟩
          intro q hq
          rw [Option.some_inj] at hq
          subst hq
          exact (firstMax?_spec (fun p : ScPair => p.latency) _).2 _ hlsc
      | some a =>
        rw [hlcs] at h1 h3
        cases hlsc : firstMax? (fun p => p.latency) (collectScPairs lines) with
        | none =>
          rw [hlsc] at h2 h3
          subst h1
          subst h2
          subst h3
          refine ⟨by simp, ?_, by simp⟩
          intro p hp
          rw [Option.some_inj] at hp
          subst hp
          exact (firstMax?_spec (fun p : NetPair => p.latency) _).2 _ hlcs
        | some b =>
          rw [hlsc] at h2 h3
          subst h1
          subst h2
          subst h3
          refine ⟨?_, ?_, ?_⟩
          · dsimp only
            by_cases hcond : a.client_node = b.client_node ∧
                a.server_node = b.server_node ∧ abT < |a.latency - b.latency|
            · rw [if_pos hcond]
              simp only [Option.isSome_some, true_iff]
              exact ⟨a, b, rfl, rfl, hcond.1, hcond.2.1, hcond.2.2⟩
            · rw [if_neg hcond]
              simp only [Option.isSome_none, Bool.false_eq_true, false_iff]
              intro hex
              rcases hex with ⟨p, q, hp, hq, hh1, hh2, hh3⟩
              cases hp
              cases hq
              exact hcond ⟨hh1, hh2, hh3⟩
          · intro p hp
            rw [Option.some_inj] at hp
            subst hp
            exact (firstMax?_spec (fun p : NetPair => p.latency) _).2 _ hlcs
          · intro q hq
            rw [Option.some_inj] at hq
            subst hq
            exact (firstMax?_spec (fun p : ScPair => p.latency) _).2 _ hlsc

/-- Concrete commit section with one client→server round trip of latency 5
and one server→client round trip of latency 11 on the same node pair. -/
def c7Section : List Line :=
  ["10.000ms 2.000ms === operation:/cockroach.roachpb.Internal/Batch _verbose:‹1› node:‹3› x span.kind:‹client›\n".toList,
   "15.000ms 3.000ms === operation:/cockroach.roachpb.Internal/Batch _verbose:‹1› node:‹3› span.kind:‹server›\n".toList,
   "20.000ms 1.000ms event:server/node.go:1472 [n3] node sending response\n".toList,
   "31.000ms 1.000ms event:kv/kvclient/kvcoord/transport.go:207 [n3,client=abc] ‹received batch response›\n".toList]

/-- The network analysis the source computes on that section. -/
def c7Analysis : NetworkAnalysis :=
  { longest_client_server := some ⟨10, 15, 3, 3, 5⟩,
    longest_server_client := some ⟨20, 31, 3, 3, 11⟩,
    abnormal_network := some ⟨5, 11, 6, 3, 3⟩,
    client_server_pairs := [⟨10, 15, 3, 3, 5⟩],
    server_client_pairs := [⟨20, 31, 3, 3, 11⟩] }

unseal Rat.add Rat.mul Rat.inv Rat.sub in
/-- C7 witness: on the concrete section the abnormal flag is raised, and
the characterization yields the same-node maxima with discrepancy 6 over
the threshold 5 (evaluated at two different primary network thresholds). -/
theorem network_abnormal_iff_witness :
    ∃ p q, c7Analysis.longest_client_server = some p ∧
      c7Analysis.longest_server_client = some q ∧
      p.client_node = q.client_node ∧ p.server_node = q.server_node ∧
      (5 : ℚ) < |p.latency - q.latency| :=
  ((network_abnormal_iff c7Section 50 77 5).2 c7Analysis (by decide)).1.mp (by decide)

/-- The cumulative duration the spec attributes to a node: the sum of the
durations of the collected operations tagged with that node. -/
def raftNodeTotal (ops : List RaftOp) (nd : Option (List Char)) : ℚ :=
  ((ops.filter fun o => decide (o.node = nd)).map fun o => o.duration).sum

theorem raftByNode_append (ops : List RaftOp) (op : RaftOp) :
    raftByNode (ops ++ [op]) = addRaftOp (raftByNode ops) op := by
  simp [raftByNode, List.foldl_append]

/-- The per-node table has pairwise distinct nodes, each group's
accumulated duration is the per-node sum of the operations' durations, and
every operation's node owns a group. -/
theorem raftByNode_spec (ops : List RaftOp) :
    ((raftByNode ops).map (fun g => g.node)).Nodup ∧
    (∀ g ∈ raftByNode ops, g.total_duration = raftNodeTotal ops g.node) ∧
    (∀ o ∈ ops, ∃ g ∈ raftByNode ops, g.node = o.node) := by
  induction ops using List.reverseRecOn with
  | nil => simp [raftByNode]
  | append_singleton ops op ih =>
    obtain ⟨ihn, iht, ihc⟩ := ih
    rw [raftByNode_append]
    simp only [addRaftOp]
    by_cases hany : (raftByNode ops).any (fun g => decide (g.node = op.node)) = true
    · rw [if_pos hany]
      have hnodes : ((raftByNode ops).map
          (fun g => if g.node = op.node then
            { g with operations := g.operations ++ [op],
                     total_duration := g.total_duration + op.duration }
            else g)).map (fun g => g.node) = (raftByNode ops).map (fun g => g.node) := by
        rw [List.map_map]
        apply List.map_congr_left
        intro g _
        by_cases hg : g.node = op.node <;> simp [hg]
      refine ⟨by rw [hnodes]; exact ihn, ?_, ?_⟩
      · intro g' hg'
        rcases List.mem_map.mp hg' with ⟨g, hg, hupd⟩
        by_cases hg2 : g.node = op.node
        · rw [if_pos hg2] at hupd
          subst hupd
          simp only [raftNodeTotal, List.filter_append]
          rw [iht g hg]
          simp [List.filter_cons, hg2, raftNodeTotal]
        · rw [if_neg hg2] at hupd
          subst hupd
          simp only [raftNodeTotal, List.filter_append]
          rw [iht g hg]
          have hops : ¬(op.node = g.node) := fun hc => hg2 hc.symm
          simp [List.filter_cons, hops, raftNodeTotal]
      · intro o ho
        rcases List.mem_append.mp ho with ho | ho
        · rcases ihc o ho with ⟨g, hg, hgo⟩
          by_cases hg2 : g.node = op.node
          · refine ⟨⟨g.node, g.operations ++ [op], g.total_duration + op.duration⟩,
              ?_, by simpa using hgo⟩
            apply List.mem_map.mpr
            exact ⟨g, hg, by rw [if_pos hg2]⟩
          · refine ⟨g, ?_, hgo⟩
            apply List.mem_map.mpr
            exact ⟨g, hg, by rw [if_neg hg2]⟩
        · simp only [List.mem_singleton] at ho
          subst ho
          rcases List.any_eq_true.mp hany with ⟨g, hg, hgo⟩
          simp only [decide_eq_true_eq] at hgo
          refine ⟨⟨g.node, g.operations ++ [o], g.total_duration + o.duration⟩,
            ?_, by simpa using hgo⟩
          apply List.mem_map.mpr
          exact ⟨g, hg, by rw [if_pos hgo]⟩
    · rw [if_neg hany]
      have hnone : ∀ g ∈ raftByNode ops, ¬(g.node = op.node) := by
        intro g hg
        intro hc
        exact hany (List.any_eq_true.mpr ⟨g, hg, by simp [hc]⟩)
      have hfilter : ops.filter (fun o => decide (o.node = op.node)) = [] := by
        rw [List.filter_eq_nil_iff]
        intro o ho
        simp only [decide_eq_true_eq]
        intro hc
        rcases ihc o ho with ⟨g, hg, hgo⟩
        exact hnone g hg (hgo.trans hc)
      refine ⟨?_, ?_, ?_⟩
      · simp only [List.map_append, List.map_cons, List.map_nil]
        apply List.Nodup.append ihn (by simp)
        intro x hx hy
        simp only [List.mem_singleton] at hy
        subst hy
        rcases List.mem_map.mp hx with ⟨g, hg, hgx⟩
        exact hnone g hg hgx
      · intro g' hg'
        rcases List.mem_append.mp hg' with hg' | hg'
        · rw [iht g' hg']
          simp only [raftNodeTotal, List.filter_append, List.filter_cons]
          have : ¬(op.node = g'.node) := fun hc => hnone g' hg' hc.symm
          simp [this]
        · simp only [List.mem_singleton] at hg'
          subst hg'
          simp only [raftNodeTotal, List.filter_append, List.filter_cons]
          simp [hfilter, raftNodeTotal]
      · intro o ho
        rcases List.mem_append.mp ho with ho | ho
        · rcases ihc o ho with ⟨g, hg, hgo⟩
          exact ⟨g, List.mem_append.mpr (Or.inl hg), hgo⟩
        · simp only [List.mem_singleton] at ho
          subst ho
          exact ⟨⟨o.node, [o], o.duration⟩,
            List.mem_append.mpr (Or.inr (by simp)), rfl⟩

/-- C8: the Raft analyzer groups the collected operations by node, each
group's cumulative duration being the sum of the step durations of the
operations tagged with that node; it reports nothing exactly when no
node's cumulative sum strictly exceeds the threshold, and otherwise
reports a qualifying node of maximal cumulative sum. -/
theorem raft_report_spec (lines : List Line) (raftT : ℚ) :
    (∀ r, analyze_raft_timing lines raftT = some r →
      r.raft_operations = raftOperations lines ∧
      r.raft_by_node = raftByNode (raftOperations lines) ∧
      (∀ g ∈ r.raft_by_node, g.total_duration = raftNodeTotal r.raft_operations g.node) ∧
      (∀ o ∈ r.raft_operations, ∃ g ∈ r.raft_by_node, g.node = o.node) ∧
      (r.longest_raft = none ↔ ∀ g ∈ r.raft_by_node, g.total_duration ≤ raftT) ∧
      (∀ g, r.longest_raft = some g → g ∈ r.raft_by_node ∧ raftT < g.total_duration ∧
        ∀ x ∈ r.raft_by_node, x.total_duration ≤ g.total_duration)) ∧
    (lines.isEmpty = false → (analyze_raft_timing lines raftT).isSome = true) := by
  constructor
  · intro r hr
    obtain ⟨lr, ops, gs⟩ := r
    simp only [analyze_raft_timing] at hr
    split at hr
    · exact absurd hr (by simp)
    · simp only [Option.some_inj, RaftAnalysis.mk.injEq] at hr
      obtain ⟨h1, h2, h3⟩ := hr
      subst h2
      subst h3
      dsimp only
      obtain ⟨-, iht, ihc⟩ := raftByNode_spec (raftOperations lines)
      refine ⟨rfl, rfl, iht, ihc, ?_, ?_⟩
      · rw [← h1]
        exact (firstMaxGt?_spec (fun g : RaftNodeGroup => g.total_duration) raftT _).1
      · intro g hg
        rw [← h1] at hg
        exact (firstMaxGt?_spec (fun g : RaftNodeGroup => g.total_duration) raftT _).2 g hg
  · intro hne
    simp [analyze_raft_timing, hne]

/-- Concrete commit section holding a single submit-proposal Raft event of
duration 50 on node 2. -/
def c8Section : List Line :=
  ["5.000ms 50.000ms event:kv/kvserver/replica_raft.go:430 [n2,s2] submitting proposal to proposal buffer\n".toList]

/-- The Raft operation the source collects from that section. -/
def c8Op : RaftOp :=
  { type := RaftOpType.submitting_proposal, timestamp := 5, duration := 50,
    node := some ['2'],
    line := "5.000ms 50.000ms event:kv/kvserver/replica_raft.go:430 [n2,s2] submitting proposal to proposal buffer".toList }

/-- The Raft analysis the source computes on that section with threshold 40. -/
def c8Analysis : RaftAnalysis :=
  { longest_raft := some ⟨some ['2'], [c8Op], 50⟩,
    raft_operations := [c8Op],
    raft_by_node := [⟨some ['2'], [c8Op], 50⟩] }

unseal Rat.add Rat.mul Rat.inv Rat.sub in
/-- C8 witness: on the concrete section node 2's cumulative duration 50
exceeds the threshold 40 and is reported as the maximal qualifying node. -/
theorem raft_report_spec_witness :
    (⟨some ['2'], [c8Op], 50⟩ : RaftNodeGroup) ∈ c8Analysis.raft_by_node ∧
    (40 : ℚ) < (⟨some ['2'], [c8Op], 50⟩ : RaftNodeGroup).total_duration ∧
    ∀ x ∈ c8Analysis.raft_by_node,
      x.total_duration ≤ (⟨some ['2'], [c8Op], 50⟩ : RaftNodeGroup).total_duration :=
  ((raft_report_spec c8Section 40).1 c8Analysis (by decide)).2.2.2.2.2
    ⟨some ['2'], [c8Op], 50⟩ (by decide)

/-- C10: the duration-bound filter of the commit pipeline never removes a
record whose commit duration is null — the bounds are compared only when
the duration is non-null — and in the ranked output a null-duration record
never precedes, and hence follows, every record with a positive commit
duration (null sorts as 0). -/
theorem null_commit_duration_handling (min_duration max_duration : ℚ)
    (l : List CommitRec) :
    (∀ r ∈ l, r.commit_duration = none →
      r ∈ filterCommitsByDuration min_duration max_duration l) ∧
    List.Pairwise
      (fun a b => a.commit_duration = none →
        ∀ d, b.commit_duration = some d → d ≤ 0)
      (rankValidCommits min_duration max_duration l) := by
  constructor
  · intro r hr hnone
    apply List.mem_filter.mpr
    refine ⟨hr, ?_⟩
    simp [passesDurationBounds, hnone]
  · have hs := sortDescBy_sorted commitSortKey
      (filterCommitsByDuration min_duration max_duration l)
    apply hs.imp
    intro a b hab hnone d hd
    simp only [commitSortKey, hnone, Option.getD_none, hd, Option.getD_some] at hab
    exact hab

/-- C10 witness: a record with null commit duration passes arbitrary
bounds, and after ranking against a positive-duration record it comes
second. -/
theorem null_commit_duration_handling_witness :
    (CommitRec.mk 7 [] none ∈
      filterCommitsByDuration 50 150 [CommitRec.mk 7 [] none]) ∧
    List.Pairwise
      (fun a b => a.commit_duration = none →
        ∀ d, b.commit_duration = some d → d ≤ 0)
      (rankValidCommits 0 150 [CommitRec.mk 7 [] none, CommitRec.mk 8 [] (some 90)]) :=
  ⟨(null_commit_duration_handling 50 150 [CommitRec.mk 7 [] none]).1
      (CommitRec.mk 7 [] none) (by simp) rfl,
   (null_commit_duration_handling 0 150
      [CommitRec.mk 7 [] none, CommitRec.mk 8 [] (some 90)]).2⟩
